import Mathlib

/-!
Verification development for the log-anomaly-detection engine in
`src/log_sentinel.py`.  The Python file wraps two third-party components
(a TF-IDF vectorizer and an isolation forest); their behaviour is not part
of the repository source, so those components are modelled from the
specification (spec sections 4.1, 4.2 and 4.3), while the
`LogAnomalyDetector` class itself (its `__init__`, `train` and `predict`
methods) is embedded directly from the source.
-/

/-! ## Tokenizer (Modelled from the spec: section 4.1, the third-party
vectorizer's analyzer is not in the repository).  A token is a maximal run
of alphanumeric characters, case-folded; tokens in a fixed English
stopword set are dropped. -/

/-- Modelled from the spec: "a fixed stopword set" (section 4.1); the spec
does not enumerate the set, this is a representative fixed English list. -/
def stopwords : List String :=
  ["a", "an", "the", "and", "or", "not", "is", "are", "was", "were",
   "to", "of", "in", "on", "for", "from", "with", "at", "by", "it",
   "this", "that", "be", "as", "has", "have", "had", "but", "if", "via"]

def isTokenChar (c : Char) : Bool := c.isAlphanum

/-- Split a character list into maximal runs of token characters: a
non-token character closes the run in progress; the empty fragments are
dropped at the end. -/
def tokenizeChars (cs : List Char) : List (List Char) :=
  (cs.foldr
      (fun c acc =>
        if isTokenChar c then
          match acc with
          | [] => [[c]]
          | r :: rs => (c :: r) :: rs
        else [] :: acc)
      []).filter (fun r => !r.isEmpty)

/-- Modelled from the spec: "tokenize each line (case-fold, split on
non-alphanumeric boundaries), drop tokens in a fixed stopword set"
(section 4.1). -/
def tokenize (line : String) : List String :=
  ((tokenizeChars line.toList).map
      (fun cs => String.mk (cs.map Char.toLower))).filter
    (fun t => decide (t ∉ stopwords))

/-! ## Fitted TF-IDF vectorizer (Modelled from the spec: sections 3 and
4.1; the third-party `TfidfVectorizer` internals are not in the
repository). -/

/-- The frozen state of a fitted TF-IDF vectorizer: the vocabulary (one
token per index, first-seen order), the per-index document frequencies,
and the training corpus size. -/
structure TfidfVectorizer where
  vocabulary : List String
  docFreq : List ℕ
  corpusSize : ℕ
deriving Repr, DecidableEq

/-- Distinct elements in first-seen order. -/
def firstSeen (l : List String) : List String := l.reverse.dedup.reverse

/-- Document frequency of token `t` in corpus `logs`: the number of
lines whose token list contains `t`. -/
def docFreqIn (logs : List String) (t : String) : ℕ :=
  logs.countP (fun l => decide (t ∈ tokenize l))

/-- Modelled from the spec: `fit` of section 4.1.  Builds the vocabulary
in first-seen order and the per-index document frequencies; fails with
`EmptyVocabulary` when no tokens survive stopword removal. -/
def fitVectorizer (logs : List String) : Option TfidfVectorizer :=
  let vocab := firstSeen ((logs.map tokenize).flatten)
  if vocab.isEmpty then none
  else some ⟨vocab, vocab.map (docFreqIn logs), logs.length⟩

/-- Document frequency recorded for token `t` in a fitted vectorizer. -/
def TfidfVectorizer.dfOf (v : TfidfVectorizer) (t : String) : ℕ :=
  v.docFreq.getD (v.vocabulary.indexOf t) 0

/-- Modelled from the spec: the raw (un-normalized) weight of token `t`
for one line: `termFrequency * (log ((1 + N) / (1 + documentFrequency)) + 1)`
for a known token, `0` for a token outside the frozen vocabulary
(section 4.1, transform). -/
noncomputable def rawWeight (v : TfidfVectorizer) (line : String) (t : String) : ℝ :=
  if t ∈ v.vocabulary then
    ((tokenize line).count t : ℝ) *
      (Real.log ((1 + (v.corpusSize : ℝ)) / (1 + (v.dfOf t : ℝ))) + 1)
  else 0

/-- The raw feature vector of a line, indexed like the vocabulary. -/
noncomputable def rawVec (v : TfidfVectorizer) (line : String) : List ℝ :=
  v.vocabulary.map (rawWeight v line)

/-- Squared Euclidean norm of a list of reals. -/
def l2normSq (u : List ℝ) : ℝ := (u.map (fun x => x ^ 2)).sum

/-- Modelled from the spec: `transform` of section 4.1: the raw tf-idf
vector, L2-normalized to unit Euclidean norm unless all weights are zero,
in which case it is returned unchanged (the zero vector). -/
noncomputable def TfidfVectorizer.transform (v : TfidfVectorizer) (line : String) :
    List ℝ :=
  let u := rawVec v line
  if l2normSq u = 0 then u
  else u.map (fun x => x / Real.sqrt (l2normSq u))

/-! ## Anomaly classifier (Modelled from the spec: section 4.3; the
third-party forest's thresholding internals are not in the repository).
Scores are real numbers; the threshold is the `(1 - contaminationRate)`
empirical quantile of the scores being labeled.  The spec's "at or above"
sentence conflicts with its own all-identical edge case ("no item exceeds
the threshold, all Normal"); a strict comparison satisfies the edge case,
so the strict form is modelled. -/

/-- The index of the `q`-quantile in a sorted list of length `n`
(ceiling-rank empirical quantile). -/
def rankIndex (q : ℚ) (n : ℕ) : ℕ := (Int.ceil (q * ((n : ℚ) - 1))).toNat

/-- The `q`-quantile of a list of scores: the entry of the ascending sort
at the ceiling rank (`0` for the empty list). -/
noncomputable def quantile (q : ℚ) (scores : List ℝ) : ℝ :=
  (scores.insertionSort (· ≤ ·)).getD (rankIndex q scores.length) 0

/-- Modelled from the spec: the decision threshold of section 4.3, the
`(1 - contaminationRate)`-quantile of the score distribution. -/
noncomputable def quantileThreshold (scores : List ℝ) (rate : ℚ) : ℝ :=
  quantile (1 - rate) scores

/-- Modelled from the spec: section 4.3 labeling, in the source's
convention (`-1` = Anomaly, `1` = Normal, line 70 of the source): a score
strictly above the threshold is an anomaly. -/
noncomputable def labelScores (scores : List ℝ) (rate : ℚ) : List ℤ :=
  scores.map (fun s => if quantileThreshold scores rate < s then -1 else 1)

theorem labelScores_length (scores : List ℝ) (rate : ℚ) :
    (labelScores scores rate).length = scores.length :=
  List.length_map _ _

/-! ## Isolation forest (Modelled from the spec: section 4.2; the
third-party `IsolationForest` internals are not in the repository).  The
spec leaves the pseudo-random generator itself unspecified ("using the
supplied seed", section 4.2); a linear congruential generator stands in
for it.  Feature vectors are dense lists of reals indexed like the
vocabulary; real numbers model the floating-point values of the source. -/

/-- Deterministic pseudo-random generator state. -/
structure Rng where
  state : ℕ
deriving Repr, DecidableEq

/-- One step of a 64-bit linear congruential generator. -/
def rngNext (g : Rng) : ℕ × Rng :=
  let s := (6364136223846793005 * g.state + 1442695040888963407) % 2 ^ 64
  (s, ⟨s⟩)

/-- A pseudo-random natural number below `n` (for `n > 0`). -/
def rngNat (g : Rng) (n : ℕ) : ℕ × Rng :=
  let p := rngNext g
  (p.1 % n, p.2)

/-- A pseudo-random rational in `[0, 1)`. -/
def rngUnit (g : Rng) : ℚ × Rng :=
  let p := rngNext g
  ((p.1 : ℚ) / 2 ^ 64, p.2)

/-- Modelled from the spec: "draw a random subsample of `ψ` vectors
without replacement" (section 4.2): repeatedly remove a pseudo-randomly
chosen element. -/
def subsample {α : Type} [Inhabited α] : Rng → List α → ℕ → List α × Rng
  | g, _, 0 => ([], g)
  | g, xs, k + 1 =>
    if xs.isEmpty then ([], g)
    else
      let p := rngNat g xs.length
      let rest := subsample p.2 (xs.eraseIdx p.1) k
      (xs.getD p.1 (xs.headD default) :: rest.1, rest.2)

/-- An isolation tree: internal nodes hold a feature index and a real
split threshold; leaves hold the count of training points that reached
them and the depth at which they terminated (spec section 3). -/
inductive ITree where
  | leaf (count : ℕ) (depth : ℕ) : ITree
  | node (feature : ℕ) (threshold : ℝ) (left : ITree) (right : ITree) : ITree

/-- Minimum of a list of reals (`0` for the empty list). -/
noncomputable def listMin (l : List ℝ) : ℝ :=
  match l with
  | [] => 0
  | x :: xs => xs.foldl min x

/-- Maximum of a list of reals (`0` for the empty list). -/
noncomputable def listMax (l : List ℝ) : ℝ :=
  match l with
  | [] => 0
  | x :: xs => xs.foldl max x

/-- The value of feature `f` across a subset of vectors. -/
def featureVals (S : List (List ℝ)) (f : ℕ) : List ℝ :=
  S.map (fun v => v.getD f 0)

/-- The feature indices whose value is non-constant across `S` (the spec
resolves all-constant subsets by early leaf termination, sections 4.2 and
9). -/
noncomputable def nonConstantFeatures (S : List (List ℝ)) (dim : ℕ) : List ℕ :=
  (List.range dim).filter
    (fun f => decide (listMin (featureVals S f) < listMax (featureVals S f)))

/-- Modelled from the spec: recursive isolation-tree growth of section
4.2.  `fuel` is the number of levels left before the depth limit
`ceil(log2 ψ)`; `depth` is the current depth, recorded in leaves. -/
noncomputable def buildTree (dim : ℕ) :
    ℕ → List (List ℝ) → ℕ → Rng → ITree × Rng
  | 0, S, depth, g => (ITree.leaf S.length depth, g)
  | fuel + 1, S, depth, g =>
    if S.length ≤ 1 then (ITree.leaf S.length depth, g)
    else
      let candidates := nonConstantFeatures S dim
      if candidates.isEmpty then (ITree.leaf S.length depth, g)
      else
        let pc := rngNat g candidates.length
        let f := candidates.getD pc.1 0
        let lo := listMin (featureVals S f)
        let hi := listMax (featureVals S f)
        let pu := rngUnit pc.2
        let t := lo + (pu.1 : ℝ) * (hi - lo)
        let L := S.filter (fun v => decide (v.getD f 0 < t))
        let R := S.filter (fun v => decide (¬ v.getD f 0 < t))
        let bl := buildTree dim fuel L (depth + 1) pu.2
        let br := buildTree dim fuel R (depth + 1) bl.2
        (ITree.node f t bl.1 br.1, br.2)

/-- An isolation forest: the trees and the subsample size used to build
each (spec section 3). -/
structure IsolationForest where
  psi : ℕ
  trees : List ITree

/-- Modelled from the spec: forest fitting of section 4.2.  Each of the
`T` trees gets a per-tree seed `seed + treeIndex`, a subsample of
`min ψ |vectors|` vectors, and a depth limit of `ceil(log2 ψ)`. -/
noncomputable def fitForest (vectors : List (List ℝ)) (T ψ seed : ℕ) :
    IsolationForest :=
  let ψeff := min ψ vectors.length
  let dim := (vectors.headD []).length
  let maxDepth := Nat.clog 2 ψeff
  ⟨ψeff,
    (List.range T).map (fun i =>
      let drawn := subsample ⟨seed + i⟩ vectors ψeff
      (buildTree dim maxDepth drawn.1 0 drawn.2).1)⟩

/-- The spec's numeric value for the Euler–Mascheroni constant
(section 4.2). -/
noncomputable def eulerGammaConst : ℝ := 5772156649 / 10 ^ 10

/-- Modelled from the spec: the asymptotic path-length correction
`c(m) = 2 (ln (m - 1) + 0.5772156649) - 2 (m - 1) / m` for `m > 1`, else
`0` (section 4.2). -/
noncomputable def cFactor (m : ℕ) : ℝ :=
  if 1 < m then
    2 * (Real.log ((m : ℝ) - 1) + eulerGammaConst) - 2 * ((m : ℝ) - 1) / (m : ℝ)
  else 0

/-- Path length of a vector through one tree: the leaf's depth plus the
correction for the leaf's size (spec section 4.2, score). -/
noncomputable def pathLen : ITree → List ℝ → ℝ
  | ITree.leaf count depth, _ => (depth : ℝ) + cFactor count
  | ITree.node f t l r, x =>
    if x.getD f 0 < t then pathLen l x else pathLen r x

/-- Modelled from the spec: the anomaly score
`s(x) = 2 ^ (- E[h(x)] / c(ψ))` (section 4.2, score). -/
noncomputable def IsolationForest.score (F : IsolationForest) (x : List ℝ) : ℝ :=
  let avg := ((F.trees.map (fun t => pathLen t x)).sum) / (F.trees.length : ℝ)
  (2 : ℝ) ^ (-avg / cFactor F.psi)

/-! ## The `LogAnomalyDetector` class, embedded from the source
(`src/log_sentinel.py`).  Object state is passed explicitly: each method
takes the receiver and returns it (updated where the Python method
assigns to `self`).  The unfitted vectorizer and forest are represented
by empty frozen states gated behind the `is_trained` flag, exactly as
the source gates them (line 61). -/

/-- The error taxonomy of the spec (section 7); the source raises plain
exceptions at the corresponding places. -/
inductive Err where
  | NotTrained : Err
  | EmptyVocabulary : Err
  | InsufficientData : Err
deriving Repr, DecidableEq

/-- The state of a `LogAnomalyDetector` object: the contamination rate
and random seed from `__init__` (lines 19-31), the vectorizer and forest,
and the `is_trained` flag (line 32). -/
structure LogAnomalyDetector where
  contamination : ℚ
  random_state : ℕ
  vectorizer : TfidfVectorizer
  model : IsolationForest
  is_trained : Bool

/-- `__init__` (lines 19-32): stores the contamination rate, fixes the
seed to 42, and leaves the model untrained. -/
def LogAnomalyDetector.init (contamination : ℚ) : LogAnomalyDetector :=
  ⟨contamination, 42, ⟨[], [], 0⟩, ⟨0, []⟩, false⟩

/-- The default forest size of the third-party ensemble (spec section
6). -/
def forestSizeT : ℕ := 100

/-- The default subsample size of the third-party ensemble, capped at
the corpus size (spec section 6). -/
def subsampleSize (n : ℕ) : ℕ := min 256 n

/-- `train` (lines 34-49): fit the vectorizer on the corpus, fit the
forest on the resulting vectors, set `is_trained`.  The two third-party
fit steps fail with `EmptyVocabulary` (spec section 4.1) and
`InsufficientData` (spec section 4.2) respectively; on failure the
receiver is not updated. -/
noncomputable def LogAnomalyDetector.train (d : LogAnomalyDetector)
    (logs : List String) : Except Err LogAnomalyDetector :=
  match fitVectorizer logs with
  | none => Except.error Err.EmptyVocabulary
  | some v =>
    let X := logs.map v.transform
    if X.length < 2 then Except.error Err.InsufficientData
    else
      Except.ok ⟨d.contamination, d.random_state, v,
        fitForest X forestSizeT (subsampleSize X.length) d.random_state, true⟩

/-- The report produced by `predict` (lines 73-76): a DataFrame with the
two columns `Log_Message` and `Status`, exactly as constructed in the
source. -/
structure ResultsFrame where
  Log_Message : List String
  Status : List String
deriving Repr, DecidableEq

/-- The anomaly label string of line 75 of the source. -/
def anomalyLabel : String := "🔴 ANOMALY"

/-- The normal label string of line 75 of the source. -/
def normalLabel : String := "🟢 Normal"

/-- `predict` (lines 51-78): fails when the model is untrained (lines
61-62); otherwise transforms the lines, scores them, labels them
(`-1` = anomaly, line 70), and builds the two-column report of lines
73-76.  The method assigns no attribute, so the returned receiver equals
the argument. -/
noncomputable def LogAnomalyDetector.predict (d : LogAnomalyDetector)
    (new_logs : List String) :
    Except Err (ResultsFrame × LogAnomalyDetector) :=
  if d.is_trained then
    let Xnew := new_logs.map d.vectorizer.transform
    let scores := Xnew.map d.model.score
    let predictions := labelScores scores d.contamination
    Except.ok
      (⟨new_logs,
        predictions.map (fun p => if p = -1 then anomalyLabel else normalLabel)⟩,
       d)
  else Except.error Err.NotTrained

/-! ## A concrete trained detector, used by the witnesses below. -/

/-- A tiny concrete training corpus. -/
def exampleCorpus : List String := ["alpha beta", "gamma alpha"]

/-- The detector obtained by training on `exampleCorpus` with the
source's default contamination rate 0.05. -/
noncomputable def exampleDetector : LogAnomalyDetector :=
  ((LogAnomalyDetector.init (1 / 20)).train exampleCorpus).toOption.getD
    (LogAnomalyDetector.init (1 / 20))

theorem except_eq_ok_getD {ε α : Type} (e : Except ε α) (d : α)
    (h : e.isOk = true) : e = Except.ok (e.toOption.getD d) := by
  cases e with
  | ok v => rfl
  | error _ => exact absurd h (by simp [Except.isOk, Except.toBool])

/-- Training on the example corpus succeeds and produces
`exampleDetector`. -/
theorem train_exampleCorpus :
    (LogAnomalyDetector.init (1 / 20)).train exampleCorpus =
      Except.ok exampleDetector :=
  except_eq_ok_getD _ _ (by rfl)

theorem exampleDetector_is_trained : exampleDetector.is_trained = true := by rfl

theorem exampleDetector_contamination :
    exampleDetector.contamination = 1 / 20 := by rfl

theorem exampleDetector_contamination_nonneg :
    (0 : ℚ) ≤ exampleDetector.contamination := by
  rw [exampleDetector_contamination]; norm_num

/-! ## Shared evaluation lemmas. -/

theorem getD_pair (s : ℝ) (k : ℕ) (hk : k ≤ 1) : [s, s].getD k 0 = s := by
  interval_cases k <;> rfl

theorem rankIndex_le_one (q : ℚ) (hq : q ≤ 1) : rankIndex q 2 ≤ 1 := by
  unfold rankIndex
  have h2 : ((2 : ℕ) : ℚ) - 1 = 1 := by norm_num
  rw [h2, mul_one]
  have : Int.ceil q ≤ 1 := by
    exact_mod_cast Int.ceil_le.mpr (by exact_mod_cast hq)
  omega

theorem quantile_pair (q : ℚ) (hq : q ≤ 1) (s : ℝ) : quantile q [s, s] = s := by
  unfold quantile
  have hsort : List.insertionSort (· ≤ ·) [s, s] = [s, s] := by
    simp [List.insertionSort, List.orderedInsert, le_refl]
  rw [hsort]
  exact getD_pair s _ (by simpa using rankIndex_le_one q hq)

/-- On a two-element stream of identical lines every trained detector
reports two Normal rows: both scores coincide, so neither is strictly
above the quantile threshold. -/
theorem predict_pair (d : LogAnomalyDetector) (h : d.is_trained = true)
    (hc : 0 ≤ d.contamination) (l : String) :
    d.predict [l, l] =
      Except.ok (⟨[l, l], [normalLabel, normalLabel]⟩, d) := by
  unfold LogAnomalyDetector.predict
  rw [h]
  simp only [if_true]
  have hq : (1 : ℚ) - d.contamination ≤ 1 := by linarith
  have hthr :
      quantileThreshold
        (List.map d.model.score (List.map d.vectorizer.transform [l, l]))
        d.contamination = d.model.score (d.vectorizer.transform l) := by
    unfold quantileThreshold
    simp only [List.map]
    exact quantile_pair _ hq _
  unfold labelScores
  rw [hthr]
  simp [lt_irrefl]

/-! ## Claim theorems. -/

/-- C2: for every sequence of input lines, calling `predict` on a model
on which `train` has never completed (a freshly initialized detector, or
any detector whose `is_trained` flag — set only at the end of a
successful `train` — is still false) always fails with the `NotTrained`
error and never returns a result. -/
theorem predict_untrained_fails :
    (∀ c : ℚ, (LogAnomalyDetector.init c).is_trained = false) ∧
    ∀ (d : LogAnomalyDetector) (lines : List String), d.is_trained = false →
      d.predict lines = Except.error Err.NotTrained := by
  refine ⟨fun _ => rfl, fun d lines h => ?_⟩
  unfold LogAnomalyDetector.predict
  rw [h]
  simp

/-- Witness for C2 at a freshly initialized detector and a concrete
input. -/
theorem predict_untrained_fails_witness :
    (LogAnomalyDetector.init (1 / 10)).is_trained = false ∧
    (LogAnomalyDetector.init (1 / 10)).predict ["x"] =
      Except.error Err.NotTrained :=
  ⟨rfl, predict_untrained_fails.2 _ ["x"] rfl⟩

/-- C9: after training, the model state is never modified by a `predict`
call: the detector returned alongside the report equals the detector the
method was called on (the source's `predict` assigns no attribute). -/
theorem predict_preserves_model_state (d : LogAnomalyDetector)
    (lines : List String) (out : ResultsFrame) (d' : LogAnomalyDetector)
    (h : d.predict lines = Except.ok (out, d')) : d' = d := by
  unfold LogAnomalyDetector.predict at h
  cases ht : d.is_trained with
  | true =>
    rw [ht] at h
    simp only [if_true, Except.ok.injEq, Prod.mk.injEq] at h
    exact h.2.symm
  | false =>
    rw [ht] at h
    simp at h

/-- Witness for C9: a concrete successful `predict` call on the example
detector returns it unchanged. -/
theorem predict_preserves_model_state_witness :
    exampleDetector.predict ["x", "x"] =
      Except.ok (⟨["x", "x"], [normalLabel, normalLabel]⟩, exampleDetector) ∧
    exampleDetector = exampleDetector := by
  have h := predict_pair exampleDetector exampleDetector_is_trained
    exampleDetector_contamination_nonneg "x"
  exact ⟨h, predict_preserves_model_state _ _ _ _ h⟩

/-- C10: `predict` returns exactly one result row per input line, and
the `Log_Message` column equals the input list, so the `i`-th row's
`Log_Message` field equals the `i`-th input line. -/
theorem predict_rows_match_input (d : LogAnomalyDetector)
    (lines : List String) (out : ResultsFrame) (d' : LogAnomalyDetector)
    (h : d.predict lines = Except.ok (out, d')) :
    out.Log_Message = lines ∧ out.Status.length = lines.length := by
  unfold LogAnomalyDetector.predict at h
  cases ht : d.is_trained with
  | true =>
    rw [ht] at h
    simp only [if_true, Except.ok.injEq, Prod.mk.injEq] at h
    refine ⟨?_, ?_⟩
    · rw [← h.1]
    · rw [← h.1]
      simp [labelScores]
  | false =>
    rw [ht] at h
    simp at h

/-- Witness for C10 at the example detector and a concrete input. -/
theorem predict_rows_match_input_witness :
    exampleDetector.predict ["x", "x"] =
      Except.ok (⟨["x", "x"], [normalLabel, normalLabel]⟩, exampleDetector) ∧
    (ResultsFrame.mk ["x", "x"] [normalLabel, normalLabel]).Log_Message =
      ["x", "x"] ∧
    (ResultsFrame.mk ["x", "x"] [normalLabel, normalLabel]).Status.length =
      (["x", "x"] : List String).length := by
  have h := predict_pair exampleDetector exampleDetector_is_trained
    exampleDetector_contamination_nonneg "x"
  exact ⟨h, predict_rows_match_input _ _ _ _ h⟩

/-- Counterexample for C1: a concrete `predict` call on a trained model,
evaluated in full.  The returned report consists of exactly the two
string columns `Log_Message` and `Status` built on lines 73-76 of the
source — no continuous anomaly score appears anywhere in the returned
value, so `predict` does not return a (line, score, verdict) triple per
input line. -/
theorem predict_returns_no_score_column :
    exampleDetector.predict ["x", "x"] =
      Except.ok
        (ResultsFrame.mk ["x", "x"] [normalLabel, normalLabel],
         exampleDetector) :=
  predict_pair exampleDetector exampleDetector_is_trained
    exampleDetector_contamination_nonneg "x"

/-- C1 (amended): for every trained model and every sequence of input
lines, `predict` returns, for each input line, a pair of the original
line and a binary Normal/Anomaly verdict string; the continuous anomaly
score is used internally for the verdict but is not part of the returned
report. -/
theorem predict_returns_line_and_binary_verdict (d : LogAnomalyDetector)
    (lines : List String) (out : ResultsFrame) (d' : LogAnomalyDetector)
    (h : d.predict lines = Except.ok (out, d')) :
    out.Log_Message = lines ∧ out.Status.length = lines.length ∧
    ∀ s ∈ out.Status, s = anomalyLabel ∨ s = normalLabel := by
  unfold LogAnomalyDetector.predict at h
  cases ht : d.is_trained with
  | true =>
    rw [ht] at h
    simp only [if_true, Except.ok.injEq, Prod.mk.injEq] at h
    refine ⟨?_, ?_, ?_⟩
    · rw [← h.1]
    · rw [← h.1]
      simp [labelScores]
    · rw [← h.1]
      intro s hs
      simp only [List.mem_map] at hs
      obtain ⟨p, _, hp⟩ := hs
      by_cases hp1 : p = -1
      · left; rw [← hp, if_pos hp1]
      · right; rw [← hp, if_neg hp1]
  | false =>
    rw [ht] at h
    simp at h

/-- Witness for the amended C1 at the example detector. -/
theorem predict_returns_line_and_binary_verdict_witness :
    exampleDetector.predict ["x", "x"] =
      Except.ok (⟨["x", "x"], [normalLabel, normalLabel]⟩, exampleDetector) ∧
    (ResultsFrame.mk ["x", "x"] [normalLabel, normalLabel]).Log_Message =
      ["x", "x"] ∧
    (ResultsFrame.mk ["x", "x"] [normalLabel, normalLabel]).Status.length =
      (["x", "x"] : List String).length ∧
    ∀ s ∈ (ResultsFrame.mk ["x", "x"] [normalLabel, normalLabel]).Status,
      s = anomalyLabel ∨ s = normalLabel := by
  have h := predict_pair exampleDetector exampleDetector_is_trained
    exampleDetector_contamination_nonneg "x"
  exact ⟨h, predict_returns_line_and_binary_verdict _ _ _ _ h⟩

/-- C4: for the fixed seed stored by `__init__`, two `train` calls on
identical training data produce identical forests, which yield identical
anomaly scores on every input line. -/
theorem train_deterministic_scores (c : ℚ) (logs : List String)
    (d1 d2 : LogAnomalyDetector)
    (h1 : (LogAnomalyDetector.init c).train logs = Except.ok d1)
    (h2 : (LogAnomalyDetector.init c).train logs = Except.ok d2) :
    d1.model = d2.model ∧
    ∀ line : String,
      d1.model.score (d1.vectorizer.transform line) =
        d2.model.score (d2.vectorizer.transform line) := by
  rw [h1] at h2
  have : d1 = d2 := by
    injection h2 with h
  subst this
  exact ⟨rfl, fun _ => rfl⟩

/-- Witness for C4: two (syntactically separate) training runs on the
example corpus. -/
theorem train_deterministic_scores_witness :
    (LogAnomalyDetector.init (1 / 20)).train exampleCorpus =
      Except.ok exampleDetector ∧
    exampleDetector.model = exampleDetector.model ∧
    ∀ line : String,
      exampleDetector.model.score (exampleDetector.vectorizer.transform line) =
        exampleDetector.model.score
          (exampleDetector.vectorizer.transform line) :=
  ⟨train_exampleCorpus,
   train_deterministic_scores (1 / 20) exampleCorpus _ _
     train_exampleCorpus train_exampleCorpus⟩

/-- C6: for every training corpus in which, after stopword removal, no
tokens remain across all lines, `train` fails with the `EmptyVocabulary`
error. -/
theorem train_empty_vocabulary_error (d : LogAnomalyDetector)
    (logs : List String) (h : ∀ l ∈ logs, tokenize l = []) :
    d.train logs = Except.error Err.EmptyVocabulary := by
  unfold LogAnomalyDetector.train
  have hflat : (logs.map tokenize).flatten = [] := by
    rw [List.flatten_eq_nil_iff]
    intro x hx
    obtain ⟨l, hl, rfl⟩ := List.mem_map.mp hx
    exact h l hl
  have hv : fitVectorizer logs = none := by
    unfold fitVectorizer
    rw [hflat]
    rfl
  rw [hv]

/-- Witness for C6: a concrete corpus of a stopword-only line and a
punctuation-only line. -/
theorem train_empty_vocabulary_error_witness :
    (∀ l ∈ (["the a", "!!"] : List String), tokenize l = []) ∧
    (LogAnomalyDetector.init (1 / 10)).train ["the a", "!!"] =
      Except.error Err.EmptyVocabulary := by
  have h : ∀ l ∈ (["the a", "!!"] : List String), tokenize l = [] := by decide
  exact ⟨h, train_empty_vocabulary_error _ _ h⟩

/-! ## C3: the TF-IDF transform formula. -/

theorem l2normSq_nonneg (u : List ℝ) : 0 ≤ l2normSq u :=
  List.sum_nonneg (by
    intro x hx
    obtain ⟨y, _, rfl⟩ := List.mem_map.mp hx
    positivity)

theorem list_sum_map_div (u : List ℝ) (f : ℝ → ℝ) (c : ℝ) :
    (u.map (fun x => f x / c)).sum = (u.map f).sum / c := by
  induction u with
  | nil => simp
  | cons a u ih => simp [ih, add_div]

theorem sum_sq_eq_zero (u : List ℝ) (h : l2normSq u = 0) : ∀ x ∈ u, x = 0 := by
  induction u with
  | nil => simp
  | cons a u ih =>
    unfold l2normSq at h ih
    simp only [List.map_cons, List.sum_cons] at h
    have ha : 0 ≤ a ^ 2 := sq_nonneg a
    have hu : 0 ≤ ((u.map fun x => x ^ 2).sum) := l2normSq_nonneg u
    have h2 : a ^ 2 = 0 ∧ ((u.map fun x => x ^ 2).sum) = 0 :=
      (add_eq_zero_iff_of_nonneg ha hu).mp h
    intro x hx
    rcases List.mem_cons.mp hx with rfl | hx
    · exact pow_eq_zero_iff (by norm_num) |>.mp h2.1
    · exact ih h2.2 x hx

/-- Dividing a list by the Euclidean norm yields a unit vector whenever
the norm is nonzero. -/
theorem l2normSq_normalize (u : List ℝ) (hnz : l2normSq u ≠ 0) :
    l2normSq (u.map (fun x => x / Real.sqrt (l2normSq u))) = 1 := by
  have hpos : 0 < l2normSq u := lt_of_le_of_ne (l2normSq_nonneg u) (Ne.symm hnz)
  show ((u.map (fun x => x / Real.sqrt (l2normSq u))).map (fun x => x ^ 2)).sum = 1
  rw [List.map_map]
  have hcomp :
      ((fun x => x ^ 2) ∘ fun x => x / Real.sqrt (l2normSq u)) =
        fun x => x ^ 2 / l2normSq u := by
    funext x
    simp only [Function.comp_apply, div_pow]
    rw [Real.sq_sqrt (le_of_lt hpos)]
  rw [hcomp, list_sum_map_div]
  exact div_self hnz

/-- C3: for every frozen model and every input line, the transform step
assigns each known token the weight
`termFrequency * (log ((1 + N) / (1 + documentFrequency)) + 1)`, assigns
unknown tokens no weight, and L2-normalizes the resulting vector to unit
Euclidean norm unless all weights are zero, in which case the vector is
the (unchanged) zero vector. -/
theorem tfidf_transform_weights_spec (v : TfidfVectorizer) (line : String) :
    (∀ t, t ∉ v.vocabulary → rawWeight v line t = 0) ∧
    (∀ t, t ∈ v.vocabulary →
      rawWeight v line t =
        ((tokenize line).count t : ℝ) *
          (Real.log ((1 + (v.corpusSize : ℝ)) / (1 + (v.dfOf t : ℝ))) + 1)) ∧
    (l2normSq (rawVec v line) ≠ 0 →
      v.transform line =
        (rawVec v line).map
          (fun x => x / Real.sqrt (l2normSq (rawVec v line))) ∧
      l2normSq (v.transform line) = 1) ∧
    (l2normSq (rawVec v line) = 0 → ∀ x ∈ v.transform line, x = 0) := by
  refine ⟨fun t ht => ?_, fun t ht => ?_, fun hnz => ?_, fun hz => ?_⟩
  · unfold rawWeight; rw [if_neg ht]
  · unfold rawWeight; rw [if_pos ht]
  · unfold TfidfVectorizer.transform
    rw [if_neg hnz]
    exact ⟨rfl, l2normSq_normalize _ hnz⟩
  · unfold TfidfVectorizer.transform
    rw [if_pos hz]
    exact sum_sq_eq_zero _ hz

/-- A small concrete fitted vectorizer (vocabulary of three tokens,
corpus size 2). -/
def exampleVectorizer : TfidfVectorizer := ⟨["alpha", "beta", "gamma"], [2, 1, 1], 2⟩

theorem rawWeight_example_alpha :
    rawWeight exampleVectorizer "alpha delta" "alpha" = 1 := by
  unfold rawWeight
  rw [if_pos (by decide : "alpha" ∈ exampleVectorizer.vocabulary)]
  rw [show (tokenize "alpha delta").count "alpha" = 1 from by decide]
  rw [show exampleVectorizer.dfOf "alpha" = 2 from by decide]
  rw [show exampleVectorizer.corpusSize = 2 from rfl]
  norm_num [Real.log_one]

theorem rawVec_example :
    rawVec exampleVectorizer "alpha delta" = [(1 : ℝ), 0, 0] := by
  have h2 : rawWeight exampleVectorizer "alpha delta" "beta" = 0 := by
    unfold rawWeight
    rw [if_pos (by decide : "beta" ∈ exampleVectorizer.vocabulary)]
    rw [show (tokenize "alpha delta").count "beta" = 0 from by decide]
    norm_num
  have h3 : rawWeight exampleVectorizer "alpha delta" "gamma" = 0 := by
    unfold rawWeight
    rw [if_pos (by decide : "gamma" ∈ exampleVectorizer.vocabulary)]
    rw [show (tokenize "alpha delta").count "gamma" = 0 from by decide]
    norm_num
  show List.map _ ["alpha", "beta", "gamma"] = _
  simp only [List.map_cons, List.map_nil]
  rw [rawWeight_example_alpha, h2, h3]

theorem l2normSq_rawVec_example :
    l2normSq (rawVec exampleVectorizer "alpha delta") ≠ 0 := by
  rw [rawVec_example]
  norm_num [l2normSq]

/-- Witness for C3 at a concrete vectorizer and the line "alpha delta",
whose token "delta" is unknown to the vocabulary. -/
theorem tfidf_transform_weights_spec_witness :
    ("delta" ∉ exampleVectorizer.vocabulary ∧
      rawWeight exampleVectorizer "alpha delta" "delta" = 0) ∧
    ("alpha" ∈ exampleVectorizer.vocabulary ∧
      rawWeight exampleVectorizer "alpha delta" "alpha" =
        ((tokenize "alpha delta").count "alpha" : ℝ) *
          (Real.log
              ((1 + (exampleVectorizer.corpusSize : ℝ)) /
                (1 + (exampleVectorizer.dfOf "alpha" : ℝ))) + 1)) ∧
    (l2normSq (rawVec exampleVectorizer "alpha delta") ≠ 0 ∧
      l2normSq (exampleVectorizer.transform "alpha delta") = 1) := by
  have hd : "delta" ∉ exampleVectorizer.vocabulary := by decide
  have ha : "alpha" ∈ exampleVectorizer.vocabulary := by decide
  have hnz := l2normSq_rawVec_example
  exact ⟨⟨hd, (tfidf_transform_weights_spec exampleVectorizer "alpha delta").1 "delta" hd⟩,
    ⟨ha, (tfidf_transform_weights_spec exampleVectorizer "alpha delta").2.1 "alpha" ha⟩,
    ⟨hnz, ((tfidf_transform_weights_spec exampleVectorizer "alpha delta").2.2.1 hnz).2⟩⟩

/-! ## C5 and C7: the quantile classifier. -/

theorem rankIndex_lt (q : ℚ) (_hq0 : 0 ≤ q) (hq1 : q ≤ 1) (n : ℕ) (hn : 0 < n) :
    rankIndex q n < n := by
  unfold rankIndex
  have hn1 : (0 : ℚ) ≤ (n : ℚ) - 1 := by
    have : (1 : ℚ) ≤ (n : ℚ) := by exact_mod_cast hn
    linarith
  have hceil : Int.ceil (q * ((n : ℚ) - 1)) ≤ (n : ℤ) - 1 := by
    rw [Int.ceil_le]
    push_cast
    nlinarith
  omega

theorem rankIndex_mono (q1 q2 : ℚ) (hq : q2 ≤ q1) (n : ℕ) (hn : 0 < n) :
    rankIndex q2 n ≤ rankIndex q1 n := by
  unfold rankIndex
  have hn1 : (0 : ℚ) ≤ (n : ℚ) - 1 := by
    have : (1 : ℚ) ≤ (n : ℚ) := by exact_mod_cast hn
    linarith
  have := Int.ceil_le_ceil (mul_le_mul_of_nonneg_right hq hn1)
  omega

/-- For rank fractions in `[0, 1]` the quantile of a non-empty score
list is one of the scores. -/
theorem quantile_mem (q : ℚ) (hq0 : 0 ≤ q) (hq1 : q ≤ 1) (scores : List ℝ)
    (hne : scores ≠ []) : quantile q scores ∈ scores := by
  unfold quantile
  have hn : 0 < scores.length := List.length_pos.mpr hne
  have hlen : (List.insertionSort (· ≤ ·) scores).length = scores.length :=
    (List.perm_insertionSort _ scores).length_eq
  have hidx : rankIndex q scores.length <
      (List.insertionSort (· ≤ ·) scores).length := by
    rw [hlen]; exact rankIndex_lt q hq0 hq1 _ hn
  rw [List.getD_eq_getElem _ _ hidx]
  exact (List.perm_insertionSort (· ≤ ·) scores).mem_iff.mp (List.getElem_mem hidx)

/-- The empirical quantile is monotone in the rank fraction. -/
theorem quantile_mono (q1 q2 : ℚ) (hq : q2 ≤ q1) (hq20 : 0 ≤ q2) (hq11 : q1 ≤ 1)
    (scores : List ℝ) (hne : scores ≠ []) :
    quantile q2 scores ≤ quantile q1 scores := by
  unfold quantile
  have hsorted : (List.insertionSort (· ≤ ·) scores).Sorted (· ≤ ·) :=
    List.sorted_insertionSort _ scores
  have hlen : (List.insertionSort (· ≤ ·) scores).length = scores.length :=
    (List.perm_insertionSort _ scores).length_eq
  have hn : 0 < scores.length := List.length_pos.mpr hne
  have h1 : rankIndex q1 scores.length <
      (List.insertionSort (· ≤ ·) scores).length := by
    rw [hlen]; exact rankIndex_lt q1 (le_trans hq20 hq) hq11 _ hn
  have h2i : rankIndex q2 scores.length ≤ rankIndex q1 scores.length :=
    rankIndex_mono q1 q2 hq _ hn
  have h2 : rankIndex q2 scores.length <
      (List.insertionSort (· ≤ ·) scores).length :=
    lt_of_le_of_lt h2i h1
  rw [List.getD_eq_getElem _ _ h1, List.getD_eq_getElem _ _ h2]
  have := hsorted.rel_get_of_le
    (a := ⟨rankIndex q2 scores.length, h2⟩)
    (b := ⟨rankIndex q1 scores.length, h1⟩) (by exact h2i)
  simpa [List.get_eq_getElem] using this

/-- The number of anomaly labels equals the number of scores strictly
above the threshold. -/
theorem labelScores_count (scores : List ℝ) (rate : ℚ) :
    (labelScores scores rate).count (-1) =
      scores.countP (fun s => decide (quantileThreshold scores rate < s)) := by
  unfold labelScores
  rw [List.count_eq_countP, List.countP_map]
  have hfun :
      ((· == (-1 : ℤ)) ∘ fun s : ℝ =>
          if quantileThreshold scores rate < s then (-1 : ℤ) else 1) =
        fun s => decide (quantileThreshold scores rate < s) := by
    funext s
    by_cases h : quantileThreshold scores rate < s <;> simp [h]
  rw [hfun]

/-- Counterexample for C5: with two identical scores, both scores are at
(hence at-or-above) the `(1 - contaminationRate)`-quantile threshold, yet
both are labeled Normal (`1`), so the labeling is not "Anomaly exactly at
or above the threshold"; only the strict reading is consistent with the
all-identical edge case. -/
theorem label_at_threshold_counterexample :
    quantileThreshold [(1 : ℝ), 1] (1 / 10) ≤ 1 ∧
    labelScores [(1 : ℝ), 1] (1 / 10) = [1, 1] := by
  have ht : quantileThreshold [(1 : ℝ), 1] (1 / 10) = 1 := by
    unfold quantileThreshold
    exact quantile_pair (1 - 1 / 10) (by norm_num) 1
  refine ⟨le_of_eq ht, ?_⟩
  unfold labelScores
  rw [ht]
  simp [lt_irrefl]

/-- C5 (amended): for every sequence of scores and contamination rate in
`(0, 1)`, the classifier labels Anomaly exactly those scores strictly
above the `(1 - contaminationRate)`-quantile threshold; in particular,
when all scores are identical, no score exceeds the threshold and every
item is labeled Normal. -/
theorem label_strictly_above_threshold (scores : List ℝ) (rate : ℚ)
    (h0 : 0 < rate) (h1 : rate < 1) :
    (∀ (i : ℕ) (hi : i < scores.length)
        (hi2 : i < (labelScores scores rate).length),
      (labelScores scores rate).get ⟨i, hi2⟩ = -1 ↔
        quantileThreshold scores rate < scores.get ⟨i, hi⟩) ∧
    ((∀ x ∈ scores, ∀ y ∈ scores, x = y) →
      ∀ p ∈ labelScores scores rate, p = 1) := by
  constructor
  · intro i hi hi2
    simp only [labelScores, List.get_eq_getElem, List.getElem_map]
    by_cases h : quantileThreshold scores rate < scores[i]
    · simp [h]
    · simp only [if_neg h]
      constructor
      · intro habs; exact absurd habs (by decide)
      · intro hlt
        exact absurd hlt (by simpa using h)
  · intro hconst p hp
    unfold labelScores at hp
    obtain ⟨s, hs, rfl⟩ := List.mem_map.mp hp
    rw [if_neg]
    intro hlt
    have hne : scores ≠ [] := List.ne_nil_of_mem hs
    have hmem : quantileThreshold scores rate ∈ scores := by
      unfold quantileThreshold
      exact quantile_mem (1 - rate) (by linarith) (by linarith) scores hne
    have := hconst _ hmem _ hs
    rw [this] at hlt
    exact lt_irrefl _ hlt

/-- Witness for the amended C5 at concrete scores and rate. -/
theorem label_strictly_above_threshold_witness :
    ((0 : ℚ) < 1 / 10 ∧ (1 / 10 : ℚ) < 1) ∧
    (∀ (i : ℕ) (hi : i < ([(1 : ℝ), 2]).length)
        (hi2 : i < (labelScores [(1 : ℝ), 2] (1 / 10)).length),
      (labelScores [(1 : ℝ), 2] (1 / 10)).get ⟨i, hi2⟩ = -1 ↔
        quantileThreshold [(1 : ℝ), 2] (1 / 10) < ([(1 : ℝ), 2]).get ⟨i, hi⟩) ∧
    ((∀ x ∈ [(1 : ℝ), 2], ∀ y ∈ [(1 : ℝ), 2], x = y) →
      ∀ p ∈ labelScores [(1 : ℝ), 2] (1 / 10), p = 1) := by
  have h := label_strictly_above_threshold [(1 : ℝ), 2] (1 / 10)
    (by norm_num) (by norm_num)
  exact ⟨⟨by norm_num, by norm_num⟩, h.1, h.2⟩

/-- C7: holding the scores fixed, for contamination rates
`r1 ≤ r2` in `(0, 1)` the number of items labeled Anomaly under `r2` is
at least the number labeled Anomaly under `r1`. -/
theorem anomaly_count_monotone_in_contamination (scores : List ℝ) (r1 r2 : ℚ)
    (h0 : 0 < r1) (h12 : r1 ≤ r2) (h21 : r2 < 1) :
    (labelScores scores r1).count (-1) ≤ (labelScores scores r2).count (-1) := by
  rcases eq_or_ne scores [] with rfl | hne
  · simp [labelScores]
  · rw [labelScores_count, labelScores_count]
    have hth : quantileThreshold scores r2 ≤ quantileThreshold scores r1 := by
      unfold quantileThreshold
      exact quantile_mono (1 - r1) (1 - r2) (by linarith) (by linarith)
        (by linarith) scores hne
    apply List.countP_mono_left
    intro s _ h
    simp only [decide_eq_true_eq] at h ⊢
    exact lt_of_le_of_lt hth h

/-- Witness for C7 at concrete scores and a concrete pair of rates. -/
theorem anomaly_count_monotone_witness :
    ((0 : ℚ) < 1 / 4 ∧ (1 / 4 : ℚ) ≤ 1 / 2 ∧ (1 / 2 : ℚ) < 1) ∧
    (labelScores [(1 : ℝ), 2] (1 / 4)).count (-1) ≤
      (labelScores [(1 : ℝ), 2] (1 / 2)).count (-1) :=
  ⟨⟨by norm_num, by norm_num, by norm_num⟩,
   anomaly_count_monotone_in_contamination [(1 : ℝ), 2] (1 / 4) (1 / 2)
     (by norm_num) (by norm_num) (by norm_num)⟩

/-! ## C8 supporting development: training-order invariance of the
vectorized representation.  The token-to-weight view of the transform is
invariant under permutation of the training corpus; the index-vector
views are permutations of each other.  (The claim's further step — that
the anomaly score is therefore also invariant — depends on the
third-party forest's split-selection randomness, which the spec leaves
unspecified; it is neither proved nor refuted here.) -/

/-- The vocabulary the vectorizer would freeze for a corpus. -/
def corpusVocab (logs : List String) : List String :=
  firstSeen ((logs.map tokenize).flatten)

/-- The raw tf-idf weight of token `t` for `line`, viewed as a function
of the token rather than of the vocabulary index. -/
noncomputable def corpusRawWeight (logs : List String) (line t : String) : ℝ :=
  if t ∈ corpusVocab logs then
    ((tokenize line).count t : ℝ) *
      (Real.log ((1 + (logs.length : ℝ)) / (1 + (docFreqIn logs t : ℝ))) + 1)
  else 0

/-- The squared norm of the raw representation of `line`. -/
noncomputable def corpusNormSq (logs : List String) (line : String) : ℝ :=
  ((corpusVocab logs).map (fun u => corpusRawWeight logs line u ^ 2)).sum

/-- The normalized token-to-weight representation of `line`. -/
noncomputable def corpusTokenWeight (logs : List String) (line t : String) : ℝ :=
  if corpusNormSq logs line = 0 then corpusRawWeight logs line t
  else corpusRawWeight logs line t / Real.sqrt (corpusNormSq logs line)

theorem mem_firstSeen (t : String) (l : List String) :
    t ∈ firstSeen l ↔ t ∈ l := by
  unfold firstSeen
  rw [List.mem_reverse, List.mem_dedup, List.mem_reverse]

theorem nodup_firstSeen (l : List String) : (firstSeen l).Nodup := by
  unfold firstSeen
  exact List.nodup_reverse.mpr (List.nodup_dedup _)

theorem mem_corpusVocab (t : String) (logs : List String) :
    t ∈ corpusVocab logs ↔ ∃ l ∈ logs, t ∈ tokenize l := by
  unfold corpusVocab
  rw [mem_firstSeen, List.mem_flatten]
  constructor
  · rintro ⟨x, hx, ht⟩
    obtain ⟨l, hl, rfl⟩ := List.mem_map.mp hx
    exact ⟨l, hl, ht⟩
  · rintro ⟨l, hl, ht⟩
    exact ⟨tokenize l, List.mem_map.mpr ⟨l, hl, rfl⟩, ht⟩

/-- Permuting the corpus permutes the frozen vocabulary. -/
theorem corpusVocab_perm (logs1 logs2 : List String) (h : logs1.Perm logs2) :
    (corpusVocab logs1).Perm (corpusVocab logs2) := by
  have hn1 : (corpusVocab logs1).Nodup := nodup_firstSeen _
  have hn2 : (corpusVocab logs2).Nodup := nodup_firstSeen _
  rw [List.perm_ext_iff_of_nodup hn1 hn2]
  intro t
  rw [mem_corpusVocab, mem_corpusVocab]
  constructor
  · rintro ⟨l, hl, ht⟩; exact ⟨l, h.mem_iff.mp hl, ht⟩
  · rintro ⟨l, hl, ht⟩; exact ⟨l, h.mem_iff.mpr hl, ht⟩

theorem corpusRawWeight_perm (logs1 logs2 : List String) (h : logs1.Perm logs2)
    (line t : String) :
    corpusRawWeight logs1 line t = corpusRawWeight logs2 line t := by
  unfold corpusRawWeight
  have hmem : (t ∈ corpusVocab logs1) ↔ (t ∈ corpusVocab logs2) :=
    (corpusVocab_perm logs1 logs2 h).mem_iff
  have hdf : docFreqIn logs1 t = docFreqIn logs2 t := h.countP_eq _
  have hlen : logs1.length = logs2.length := h.length_eq
  by_cases hm : t ∈ corpusVocab logs1
  · rw [if_pos hm, if_pos (hmem.mp hm), hdf, hlen]
  · rw [if_neg hm, if_neg (fun hc => hm (hmem.mpr hc))]

theorem corpusNormSq_perm (logs1 logs2 : List String) (h : logs1.Perm logs2)
    (line : String) :
    corpusNormSq logs1 line = corpusNormSq logs2 line := by
  unfold corpusNormSq
  have hfun : (fun u => corpusRawWeight logs1 line u ^ 2) =
      (fun u => corpusRawWeight logs2 line u ^ 2) := by
    funext u
    rw [corpusRawWeight_perm logs1 logs2 h]
  rw [hfun]
  exact ((corpusVocab_perm logs1 logs2 h).map _).sum_eq

/-- The normalized token-to-weight representation of a fixed line is
invariant under permutation of the training corpus. -/
theorem tokenWeight_perm_invariant (logs1 logs2 : List String)
    (h : logs1.Perm logs2) (line t : String) :
    corpusTokenWeight logs1 line t = corpusTokenWeight logs2 line t := by
  unfold corpusTokenWeight
  rw [corpusNormSq_perm logs1 logs2 h, corpusRawWeight_perm logs1 logs2 h]

theorem fitVectorizer_eq (logs : List String) (v : TfidfVectorizer)
    (h : fitVectorizer logs = some v) :
    v.vocabulary = corpusVocab logs ∧ v.corpusSize = logs.length ∧
      v.docFreq = (corpusVocab logs).map (docFreqIn logs) := by
  unfold fitVectorizer at h
  by_cases he : (firstSeen ((logs.map tokenize).flatten)).isEmpty
  · rw [if_pos he] at h; exact absurd h (by simp)
  · rw [if_neg he] at h
    injection h with h
    rw [← h]
    exact ⟨rfl, rfl, rfl⟩

theorem dfOf_eq_docFreqIn (logs : List String) (v : TfidfVectorizer)
    (h : fitVectorizer logs = some v) (t : String) (ht : t ∈ v.vocabulary) :
    v.dfOf t = docFreqIn logs t := by
  obtain ⟨hv, _, hdf⟩ := fitVectorizer_eq logs v h
  unfold TfidfVectorizer.dfOf
  rw [hdf, hv]
  rw [hv] at ht
  have hlt : (corpusVocab logs).indexOf t < (corpusVocab logs).length :=
    List.indexOf_lt_length.mpr ht
  have hlt2 : (corpusVocab logs).indexOf t <
      ((corpusVocab logs).map (docFreqIn logs)).length := by
    rw [List.length_map]; exact hlt
  rw [List.getD_eq_getElem _ _ hlt2, List.getElem_map, List.getElem_indexOf hlt]

theorem rawWeight_eq_corpus (logs : List String) (v : TfidfVectorizer)
    (h : fitVectorizer logs = some v) (line t : String) :
    rawWeight v line t = corpusRawWeight logs line t := by
  obtain ⟨hv, hn, _⟩ := fitVectorizer_eq logs v h
  unfold rawWeight corpusRawWeight
  by_cases hm : t ∈ v.vocabulary
  · rw [if_pos hm, if_pos (hv ▸ hm), dfOf_eq_docFreqIn logs v h t hm, hn]
  · rw [if_neg hm, if_neg (fun hc => hm (hv ▸ hc))]

/-- The transform of a fitted vectorizer is exactly the token-to-weight
representation read off along the frozen vocabulary. -/
theorem transform_tokenWeight (logs : List String) (v : TfidfVectorizer)
    (h : fitVectorizer logs = some v) (line : String) :
    v.transform line = (corpusVocab logs).map (corpusTokenWeight logs line) := by
  obtain ⟨hv, _, _⟩ := fitVectorizer_eq logs v h
  have hraw : rawVec v line = (corpusVocab logs).map (corpusRawWeight logs line) := by
    unfold rawVec
    rw [hv]
    exact List.map_congr_left (fun t _ => rawWeight_eq_corpus logs v h line t)
  have hnorm : l2normSq (rawVec v line) = corpusNormSq logs line := by
    rw [hraw]
    unfold l2normSq corpusNormSq
    rw [List.map_map]
    rfl
  unfold TfidfVectorizer.transform
  show (if l2normSq (rawVec v line) = 0 then rawVec v line
    else (rawVec v line).map (fun x => x / Real.sqrt (l2normSq (rawVec v line)))) = _
  rw [hnorm, hraw]
  unfold corpusTokenWeight
  by_cases hz : corpusNormSq logs line = 0
  · rw [if_pos hz]
    exact List.map_congr_left (fun t _ => by rw [if_pos hz])
  · rw [if_neg hz, List.map_map]
    exact List.map_congr_left (fun t _ => by simp only [Function.comp_apply, if_neg hz])

/-- Vectorizers fitted on permuted corpora give every fixed line the
same token-to-weight representation, and index vectors that are
permutations of each other. -/
theorem transform_perm_invariant (logs1 logs2 : List String)
    (hperm : logs1.Perm logs2) (v1 v2 : TfidfVectorizer)
    (h1 : fitVectorizer logs1 = some v1) (h2 : fitVectorizer logs2 = some v2)
    (line : String) :
    (∀ t, corpusTokenWeight logs1 line t = corpusTokenWeight logs2 line t) ∧
    (v1.transform line).Perm (v2.transform line) := by
  refine ⟨fun t => tokenWeight_perm_invariant logs1 logs2 hperm line t, ?_⟩
  rw [transform_tokenWeight logs1 v1 h1 line, transform_tokenWeight logs2 v2 h2 line]
  have hfun : corpusTokenWeight logs1 line = corpusTokenWeight logs2 line := by
    funext t
    exact tokenWeight_perm_invariant logs1 logs2 hperm line t
  rw [hfun]
  exact (corpusVocab_perm logs1 logs2 hperm).map _
